import Mathlib

/-!
# vector2png: Android vector drawable to SVG/PNG

A shallow embedding of `main.go` and of the few standard-library routines it
relies on (`len`, slicing, `flag.Parse`, `filepath.Ext`, `strings.TrimSuffix`,
the `%s` and `%.1f` verbs of `fmt.Sprintf`), followed by the properties
established for it.

Go strings are byte sequences: `len` counts bytes and slicing cuts at byte
offsets.  They are therefore modelled as lists of bytes; string literals of the
source are written through `bytesOf`, their UTF-8 encoding.
-/

namespace Vector2png

/-! ## Strings -/

/-- A Go `string`: an immutable sequence of bytes. -/
abbrev GoString := List UInt8

/-- The bytes of a piece of text (UTF-8), as a Go string literal denotes them. -/
def bytesOf (s : String) : GoString := s.toUTF8.data.toList

/-- Go slice expression `s[i:]`.  Go panics when `i > len(s)`; the bound is
demanded as an argument, so every use is checked to be in range. -/
def sliceFrom (s : GoString) (i : Nat) (_ : i ≤ s.length) : GoString := s.drop i

/-- Go slice expression `s[:i]`, with its range check as an argument. -/
def sliceTo (s : GoString) (i : Nat) (_ : i ≤ s.length) : GoString := s.take i

/-- Source `convertColor` (main.go 41-48): a token of byte length 9 loses the
two bytes that follow its first byte and gets `#` in front; any other token is
returned as it is. -/
def convertColor (androidColor : GoString) : GoString :=
  if h : androidColor.length = 9 then
    -- Remove the alpha channel
    bytesOf "#" ++ sliceFrom androidColor 3 (by omega)
  else
    androidColor

/-! ## File names -/

/-- The operating systems that differ in `os.IsPathSeparator`. -/
inductive GOOS where
  | unix
  | windows
  deriving DecidableEq, Repr

/-- Go `os.IsPathSeparator`: `/` everywhere, and also `\` on Windows. -/
def IsPathSeparator (goos : GOOS) (c : UInt8) : Bool :=
  match goos with
  | .unix => c == 47
  | .windows => c == 92 || c == 47

/-- The loop of `filepath.Ext`, `k` being `i + 1`:
`for i := len(path) - 1; i >= 0 && !os.IsPathSeparator(path[i]); i--`
with body `if path[i] == '.' { return path[i:] }`; falling out of the loop
returns the empty string. -/
def extLoop (goos : GOOS) (path : GoString) : Nat → GoString
  | 0 => []
  | i + 1 =>
    if IsPathSeparator goos (path.getD i 0) then []
    else if path.getD i 0 = 46 then path.drop i
    else extLoop goos path i

/-- Go `filepath.Ext`: the suffix beginning at the final dot of the final
element of `path`, empty when there is no dot. -/
def Ext (goos : GOOS) (path : GoString) : GoString :=
  extLoop goos path path.length

/-- Go `strings.HasSuffix`. -/
def HasSuffix (s suffix : GoString) : Bool :=
  decide (s.length ≥ suffix.length) && s.drop (s.length - suffix.length) == suffix

/-- Go `strings.TrimSuffix`. -/
def TrimSuffix (s suffix : GoString) : GoString :=
  if HasSuffix s suffix then sliceTo s (s.length - suffix.length) (by omega) else s

/-- Source `changeExtension` (main.go 50-53). -/
def changeExtension (goos : GOOS) (filename newExt : GoString) : GoString :=
  let ext := Ext goos filename
  TrimSuffix filename ext ++ newExt

/-! ## Numbers -/

/-- A Go `float64` as the program sees it: it is parsed and printed, never
computed with.  A finite value is `(-1)^neg * mant * 2^exp`. -/
inductive Float64 where
  | finite (neg : Bool) (mant : Nat) (exp : Int)
  | inf (neg : Bool)
  | nan
  deriving DecidableEq, Repr

/-- Nearest natural number to `n / d`, ties going to the even one. -/
def roundHalfEven (n d : Nat) : Nat :=
  let q := n / d
  let r := n % d
  if d < 2 * r ∨ (2 * r = d ∧ q % 2 = 1) then q + 1 else q

/-- The magnitude `mant * 2^exp` in tenths, correctly rounded. -/
def tenths (mant : Nat) : Int → Nat
  | .ofNat e => mant * 2 ^ e * 10
  | .negSucc e => roundHalfEven (mant * 10) (2 ^ (e + 1))

/-- Decimal digits of a natural number. -/
def decimal (n : Nat) : GoString := bytesOf (Nat.repr n)

/-- The verb `%.1f` of `fmt.Sprintf` on a `float64`: one digit after the
point, correctly rounded, a minus sign whenever the sign bit is set. -/
def formatF1 : Float64 → GoString
  | .nan => bytesOf "NaN"
  | .inf false => bytesOf "+Inf"
  | .inf true => bytesOf "-Inf"
  | .finite neg mant exp =>
    (if neg then bytesOf "-" else []) ++ decimal (tenths mant exp / 10) ++ bytesOf "."
      ++ decimal (tenths mant exp % 10)

/-! ## Data model -/

/-- Go `xml.Name`. -/
structure XMLName where
  Space : GoString
  Local : GoString
  deriving DecidableEq, Repr

/-- Source `VectorPath` (main.go 18-22). -/
structure VectorPath where
  PathData : GoString
  FillColor : GoString
  FillType : GoString
  deriving DecidableEq, Repr

/-- Source `Group` (main.go 24-26). -/
structure Group where
  Paths : List VectorPath
  deriving DecidableEq, Repr

/-- Source `AndroidVectorDrawable` (main.go 28-34). -/
structure AndroidVectorDrawable where
  Name : XMLName
  Width : Float64
  Height : Float64
  Paths : List VectorPath
  Groups : List Group
  deriving DecidableEq, Repr

/-! ## SVG construction -/

/-- The header built at main.go 90:
`fmt.Sprintf("<svg viewBox=\"0 0 %.1f %.1f\" xmlns=...>", Width, Height)`. -/
def svgHeader (width height : Float64) : GoString :=
  bytesOf "<svg viewBox=\"0 0 " ++ formatF1 width ++ bytesOf " " ++ formatF1 height
    ++ bytesOf "\" xmlns=\"http://www.w3.org/2000/svg\">"

/-- The text appended for one path (main.go 93-94 and 100-101):
`fmt.Sprintf("<path d=\"%s\" fill=\"%s\"/>", path.PathData, convertColor(path.FillColor))`. -/
def pathElement (path : VectorPath) : GoString :=
  let fillColor := convertColor path.FillColor
  bytesOf "<path d=\"" ++ path.PathData ++ bytesOf "\" fill=\"" ++ fillColor ++ bytesOf "\"/>"

/-- The value of `svg` at main.go 106, obtained as the source obtains it: an
accumulator that each loop iteration extends (`svg += ...`). -/
def emitSVG (drawable : AndroidVectorDrawable) : GoString :=
  let svg := svgHeader drawable.Width drawable.Height
  let svg := drawable.Paths.foldl (fun svg path => svg ++ pathElement path) svg
  let svg := drawable.Groups.foldl
    (fun svg group =>
      let svg := svg ++ bytesOf "<g>"
      let svg := group.Paths.foldl (fun svg path => svg ++ pathElement path) svg
      svg ++ bytesOf "</g>")
    svg
  svg ++ bytesOf "</svg>"

/-- The document as the specification words it: header, one element per
top-level path, one `<g>`...`</g>` block per group, closing tag. -/
def svgDocument (drawable : AndroidVectorDrawable) : GoString :=
  svgHeader drawable.Width drawable.Height
    ++ (drawable.Paths.map pathElement).flatten
    ++ (drawable.Groups.map
          (fun group => bytesOf "<g>" ++ (group.Paths.map pathElement).flatten ++ bytesOf "</g>")).flatten
    ++ bytesOf "</svg>"

/-! ## The driver -/

/-- Argument resolution (main.go 60-68), from the values of the `-input` and
`-output` flags and the positional arguments that `flag.Parse` leaves.  Returns
the final `*inputFile` and `*outputFile`. -/
def resolveArgs (goos : GOOS) (inputFlag outputFlag : GoString) (args : List GoString) :
    GoString × GoString :=
  let inputFile := if inputFlag = [] ∧ args.length ≥ 1 then args.getD 0 [] else inputFlag
  let outputFile := if outputFlag = [] ∧ args.length ≥ 2 then args.getD 1 [] else outputFlag
  let outputFile := if outputFile = [] then changeExtension goos inputFile (bytesOf ".png")
    else outputFile
  (inputFile, outputFile)

/-- What a run does to its surroundings, in order.  `usage` is the message
that package `flag` writes to standard error when it ends the process. -/
inductive Event where
  | usage
  | println (line : GoString)
  | openFile (name : GoString)
  | writeFile (name : GoString) (data : GoString)
  | createFile (name : GoString)
  | pngEncode (name : GoString)
  deriving DecidableEq, Repr

/-- The surroundings of a run: the answers of the file system and of the
libraries (`encoding/xml`, `oksvg`, `rasterx`, `image/png`) to what the
program asks of them. -/
structure World where
  /-- Opening and reading the input: an error text, or the bytes read. -/
  openRead : GoString → Except GoString GoString
  /-- The drawable that `xml.Unmarshal` leaves behind (its error is dropped). -/
  unmarshal : GoString → AndroidVectorDrawable
  /-- Whether `os.Open` of the SVG file succeeds. -/
  svgOpens : GoString → Bool
  /-- Whether reading and drawing the icon completes. -/
  rasterOk : GoString → Bool
  /-- Whether `os.Create` of the PNG file succeeds. -/
  createOk : GoString → Bool
  /-- Whether `png.Encode` succeeds. -/
  encodeOk : GoString → Bool

/-- The events of a run and the exit code of the process. -/
structure Outcome where
  events : List Event
  exitCode : Nat
  deriving DecidableEq, Repr

/-- Source `svg2png` (main.go 115-139): the events, and whether it returns
(`true`) or panics (`false`). -/
def svg2png (w : World) (svgFile outFile : GoString) : List Event × Bool :=
  if !w.svgOpens svgFile then ([.openFile svgFile], false)
  else if !w.rasterOk svgFile then ([.openFile svgFile], false)
  else if !w.createOk outFile then ([.openFile svgFile, .createFile outFile], false)
  else if !w.encodeOk outFile then
    ([.openFile svgFile, .createFile outFile, .pngEncode outFile], false)
  else ([.openFile svgFile, .createFile outFile, .pngEncode outFile], true)

/-- Source `main` from line 58 on (main.go 58-113): what the program does once
`flag.Parse` has returned, given the flag values and the positional arguments
it left.  The whole of `main`, `flag.Parse` included, is `program` below.  An
unrecovered panic ends a Go process with exit code 2. -/
def main (goos : GOOS) (w : World) (inputFlag outputFlag : GoString) (args : List GoString) :
    Outcome :=
  let (inputFile, outputFile) := resolveArgs goos inputFlag outputFlag args
  if inputFile = [] then
    ⟨[.println (bytesOf "Missing input file name (android xml vector drawable).")], 11⟩
  else
    match w.openRead inputFile with
    | .error err =>
      ⟨[.openFile inputFile, .println (bytesOf "Error opening file: " ++ err)], 22⟩
    | .ok byteValue =>
      let drawable := w.unmarshal byteValue
      let svg := emitSVG drawable
      let svgFilename := changeExtension goos outputFile (bytesOf ".svg")
      let run := svg2png w svgFilename outputFile
      ⟨[.openFile inputFile, .writeFile svgFilename svg] ++ run.1, if run.2 then 0 else 2⟩

/-- How `parseOne` of package `flag` takes one command-line argument. -/
inductive ArgKind where
  | positional
  | terminator
  | badSyntax
  | flag (name : GoString) (value : Option GoString)
  deriving DecidableEq, Repr

/-- The loop of `parseOne` that looks for `=` from the second byte of the name
on: the name before it, and the value after it when there is one. -/
def splitValue (name : GoString) : GoString × Option GoString :=
  match name with
  | [] => ([], none)
  | c :: t =>
    match t.span (fun b => b != 61) with
    | (pre, []) => (c :: pre, none)
    | (pre, _ :: value) => (c :: pre, some value)

/-- The head of `parseOne`: an argument shorter than two bytes or not starting
with `-` ends the flags and stays; `--` ends the flags and is dropped; a name
that is empty or starts with `-` or `=` is bad syntax; anything else is a flag,
with one or two leading minus signs. -/
def classify (s : GoString) : ArgKind :=
  if s.length < 2 ∨ s.getD 0 0 ≠ 45 then .positional
  else if s.getD 1 0 = 45 ∧ s.length = 2 then .terminator
  else
    let numMinuses := if s.getD 1 0 = 45 then 2 else 1
    let name := s.drop numMinuses
    if name.length = 0 ∨ name.getD 0 0 = 45 ∨ name.getD 0 0 = 61 then .badSyntax
    else .flag (splitValue name).1 (splitValue name).2

/-- What `flag.Parse` leaves behind: the values of `*inputFile` and
`*outputFile`, the arguments not consumed (`flag.Args()`), and the exit code
when `flag.Parse` ends the process itself. -/
structure FlagState where
  inputFile : GoString
  outputFile : GoString
  args : List GoString
  exit : Option Nat
  deriving DecidableEq, Repr

/-- Setting one of the two string flags of the program (main.go 36-39). -/
def setFlag (name value : GoString) (st : GoString × GoString) : GoString × GoString :=
  if name = bytesOf "input" then (value, st.2) else (st.1, value)

/-- Go `flag.Parse` on the command line of this program, whose flag set has the
string flags `input` and `output` and the error handling `ExitOnError`.
`pending` is a flag written without `=`, whose value is the next argument.  An
undefined flag named `help` or `h` ends the process with code 0 (since Go 1.15,
code 2 before); an undefined flag, bad syntax or a flag without value ends it
with code 2. -/
def flagParse : List GoString → Option GoString → GoString × GoString → FlagState
  | [], none, st => ⟨st.1, st.2, [], none⟩
  | [], some _, st => ⟨st.1, st.2, [], some 2⟩
  | s :: rest, some name, st => flagParse rest none (setFlag name s st)
  | s :: rest, none, st =>
    match classify s with
    | .positional => ⟨st.1, st.2, s :: rest, none⟩
    | .terminator => ⟨st.1, st.2, rest, none⟩
    | .badSyntax => ⟨st.1, st.2, s :: rest, some 2⟩
    | .flag name value =>
      if name = bytesOf "input" ∨ name = bytesOf "output" then
        match value with
        | some v => flagParse rest none (setFlag name v st)
        | none => flagParse rest (some name) st
      else if name = bytesOf "help" ∨ name = bytesOf "h" then ⟨st.1, st.2, rest, some 0⟩
      else ⟨st.1, st.2, rest, some 2⟩

/-- Source `main` in full (main.go 55-113), on the command line `argv` (the
program name left out): `flag.Parse()`, which may end the process, then the
rest. -/
def program (goos : GOOS) (w : World) (argv : List GoString) : Outcome :=
  let st := flagParse argv none ([], [])
  match st.exit with
  | some code => ⟨[.usage], code⟩
  | none => main goos w st.inputFile st.outputFile st.args

/-- A world with one readable file, `icon.xml`, holding an empty drawable, and
in which every later step succeeds. -/
def iconWorld : World where
  openRead := fun name =>
    if name = bytesOf "icon.xml" then .ok (bytesOf "<vector/>") else .error (bytesOf "no such file")
  unmarshal := fun _ => ⟨⟨[], bytesOf "vector"⟩, .finite false 0 0, .finite false 0 0, [], []⟩
  svgOpens := fun _ => true
  rasterOk := fun _ => true
  createOk := fun _ => true
  encodeOk := fun _ => true

/-- Whether an event touches a file. -/
def Event.touchesFile : Event → Bool
  | .usage => false
  | .println _ => false
  | _ => true

/-- A hexadecimal digit. -/
def isHexDigit (c : Char) : Bool :=
  (48 ≤ c.toNat && c.toNat ≤ 57) || (65 ≤ c.toNat && c.toNat ≤ 70)
    || (97 ≤ c.toNat && c.toNat ≤ 102)

/-! ## Reading numbers

What "printed with one decimal place" means, said by reading the text back. -/

/-- A decimal digit. -/
def isDigitByte (b : UInt8) : Bool := 48 ≤ b.toNat && b.toNat ≤ 57

/-- The number that a run of decimal digits denotes. -/
def digitsValue (s : GoString) : Nat := s.foldl (fun v b => 10 * v + (b.toNat - 48)) 0

/-- A numeral: one or more decimal digits, without a leading zero unless it is
the single digit `0`. -/
def isNumeral (s : GoString) : Bool :=
  !s.isEmpty && s.all isDigitByte && (s.head? != some 48 || s.length == 1)

/-- Reads a numeral, a point and one digit: the number of tenths denoted. -/
def readTenths (body : GoString) : Option Nat :=
  let whole := body.take (body.length - 2)
  let frac := body.drop (body.length - 2)
  if isNumeral whole && frac.length == 2 && frac.head? == some 46
      && isDigitByte (frac.getD 1 0) then
    some (10 * digitsValue whole + ((frac.getD 1 0).toNat - 48))
  else none

/-- Reads a number written with one decimal place, such as `24.0` or `-0.5`:
whether it has a minus sign, and its magnitude in tenths. -/
def readOneDecimal (s : GoString) : Option (Bool × Nat) :=
  if s.head? = some 45 then (readTenths (s.drop 1)).map (fun n => (true, n))
  else (readTenths s).map (fun n => (false, n))

/-- Whether `n` tenths is the magnitude `mant * 2^exp` rounded to the nearest
tenth, the even one of two equally near. -/
def nearestTenth (mant : Nat) (exp : Int) (n : Nat) : Bool :=
  match exp with
  | .ofNat e => n == mant * 2 ^ e * 10
  | .negSucc e =>
    let d := 2 ^ (e + 1)
    let below := mant * 10 - n * d
    let above := n * d - mant * 10
    decide (2 * below ≤ d) && decide (2 * above ≤ d)
      && (decide (2 * below ≠ d ∧ 2 * above ≠ d) || n % 2 == 0)

/-- The digits that `Nat.repr` yields for `n`: decimal digits, at least one,
denoting `n`, without a leading zero unless `n` is zero. -/
def GoodDigits (cs : List Char) (n : Nat) : Prop :=
  (∀ c ∈ cs, 48 ≤ c.toNat ∧ c.toNat ≤ 57) ∧ cs ≠ []
    ∧ cs.foldl (fun v c => 10 * v + (c.toNat - 48)) 0 = n
    ∧ (cs.head? = some '0' → cs = ['0'])

/-! ## Strings: auxiliary facts -/

theorem bytesOf_mk (cs : List Char) : bytesOf ⟨cs⟩ = cs.flatMap String.utf8EncodeChar := rfl

theorem bytesOf_eq (s : String) : bytesOf s = s.data.flatMap String.utf8EncodeChar := rfl

theorem utf8EncodeChar_ascii (c : Char) (h : c.toNat ≤ 127) :
    String.utf8EncodeChar c = [c.val.toUInt8] := by
  have h2 : c.val ≤ 127 := by
    rw [UInt32.le_def]
    exact h
  simp [String.utf8EncodeChar, h2]

theorem bytesOf_ascii (cs : List Char) (h : ∀ c ∈ cs, c.toNat ≤ 127) :
    bytesOf ⟨cs⟩ = cs.map (fun c => c.val.toUInt8) := by
  induction cs with
  | nil => rfl
  | cons c cs ih =>
    have hc := utf8EncodeChar_ascii c (h c (List.mem_cons_self c cs))
    have ht := ih (fun x hx => h x (List.mem_cons_of_mem c hx))
    rw [bytesOf_mk] at ht ⊢
    simp [List.flatMap_cons, hc, ht]

theorem bytesOf_hash : bytesOf "#" = [35] := by decide

theorem convertColor_len9 (s : GoString) (h : s.length = 9) :
    convertColor s = bytesOf "#" ++ s.drop 3 := by
  simp [convertColor, sliceFrom, h]

theorem convertColor_other (s : GoString) (h : s.length ≠ 9) : convertColor s = s := by
  simp [convertColor, h]

/-! ## Numbers: auxiliary facts -/

theorem digitChar_lt (d : Nat) (h : d < 10) :
    (Nat.digitChar d).toNat = 48 + d := by
  interval_cases d <;> rfl

theorem toDigitsCore_append (fuel : Nat) : ∀ (n : Nat) (ds : List Char),
    Nat.toDigitsCore 10 fuel n ds = Nat.toDigitsCore 10 fuel n [] ++ ds := by
  induction fuel with
  | zero => intro n ds; simp [Nat.toDigitsCore]
  | succ fuel ih =>
    intro n ds
    simp only [Nat.toDigitsCore]
    split_ifs
    · simp
    · rw [ih (n / 10) (_ :: ds), ih (n / 10) [_]]
      simp

theorem toDigitsCore_good (fuel : Nat) : ∀ n : Nat, n < fuel →
    GoodDigits (Nat.toDigitsCore 10 fuel n []) n := by
  induction fuel with
  | zero => intro n h; omega
  | succ fuel ih =>
    intro n h
    simp only [Nat.toDigitsCore]
    have hd : n % 10 < 10 := Nat.mod_lt _ (by decide)
    have hc := digitChar_lt (n % 10) hd
    split_ifs with h0
    · have hn : n < 10 := by omega
      have hm : n % 10 = n := Nat.mod_eq_of_lt hn
      refine ⟨?_, by simp, ?_, ?_⟩
      · intro c hcm
        simp only [List.mem_singleton] at hcm
        subst hcm
        omega
      · simp [hc]
        omega
      · intro _
        have : n = 0 := by
          rename_i hh
          simp only [List.head?_cons, Option.some.injEq] at hh
          have h2 := congrArg Char.toNat hh
          rw [hc] at h2
          have : ('0' : Char).toNat = 48 := rfl
          omega
        subst this
        rfl
    · have hlt : n / 10 < fuel := by omega
      obtain ⟨g1, g2, g3, g4⟩ := ih (n / 10) hlt
      rw [toDigitsCore_append]
      refine ⟨?_, by simp, ?_, ?_⟩
      · intro c hcm
        rcases List.mem_append.mp hcm with hcm | hcm
        · exact g1 c hcm
        · simp only [List.mem_singleton] at hcm
          subst hcm
          omega
      · rw [List.foldl_append, g3]
        simp [hc]
        omega
      · intro hh
        exfalso
        cases hcs : Nat.toDigitsCore 10 fuel (n / 10) [] with
        | nil => exact g2 hcs
        | cons c t =>
          rw [hcs] at hh g4 g3
          simp only [List.cons_append, List.head?_cons, Option.some.injEq] at hh
          have := g4 (by simp [hh])
          rw [this] at g3
          simp at g3
          exact h0 g3.symm

theorem toUInt8_toNat (c : Char) (h : c.toNat ≤ 255) : (c.val.toUInt8).toNat = c.toNat := by
  have : (c.val.toUInt8).toNat = c.toNat % 256 := rfl
  rw [this]
  omega

theorem foldl_digit_bytes (cs : List Char) (h : ∀ c ∈ cs, c.toNat ≤ 255) : ∀ v : Nat,
    (cs.map (fun c => c.val.toUInt8)).foldl (fun v b => 10 * v + (b.toNat - 48)) v
      = cs.foldl (fun v c => 10 * v + (c.toNat - 48)) v := by
  induction cs with
  | nil => intro v; rfl
  | cons c t ih =>
    intro v
    simp only [List.map_cons, List.foldl_cons]
    rw [toUInt8_toNat c (h c (List.mem_cons_self c t))]
    exact ih (fun x hx => h x (List.mem_cons_of_mem c hx)) _

theorem decimal_spec (n : Nat) :
    isNumeral (decimal n) = true ∧ digitsValue (decimal n) = n
      ∧ (decimal n).head? ≠ some 45 := by
  obtain ⟨g1, g2, g3, g4⟩ := toDigitsCore_good (n + 1) n (Nat.lt_succ_self n)
  have hb : decimal n = (Nat.toDigitsCore 10 (n + 1) n []).map (fun c => c.val.toUInt8) := by
    unfold decimal Nat.repr Nat.toDigits List.asString
    exact bytesOf_ascii _ (fun c hc => by have := g1 c hc; omega)
  rw [hb]
  generalize Nat.toDigitsCore 10 (n + 1) n [] = cs at g1 g2 g3 g4
  have hval : digitsValue (cs.map (fun c => c.val.toUInt8)) = n := by
    unfold digitsValue
    rw [foldl_digit_bytes cs (fun c hc => by have := g1 c hc; omega)]
    exact g3
  cases cs with
  | nil => exact absurd rfl g2
  | cons c t =>
    have hc := g1 c (List.mem_cons_self c t)
    have hcn := toUInt8_toNat c (by omega)
    refine ⟨?_, hval, ?_⟩
    · simp only [isNumeral, List.isEmpty_cons, Bool.not_false, Bool.true_and, Bool.and_eq_true,
        Bool.or_eq_true, List.all_eq_true]
      refine ⟨⟨by simp, ?_⟩, ?_⟩
      · intro b hbm
        obtain ⟨x, hx, rfl⟩ := List.mem_map.mp hbm
        have hx1 := g1 x hx
        have hx2 := toUInt8_toNat x (by omega)
        simp only [isDigitByte, Bool.and_eq_true, decide_eq_true_eq, hx2]
        exact hx1
      · by_cases h48 : c.toNat = 48
        · right
          have hc0 : c = '0' := by
            apply Char.ext
            apply UInt32.ext
            exact h48
          have := g4 (by simp [hc0])
          simp [this]
        · left
          simp only [List.map_cons, List.head?_cons, bne_iff_ne, ne_eq, Option.some.injEq]
          intro hh
          have h2 := congrArg UInt8.toNat hh
          rw [hcn] at h2
          exact h48 h2
    · simp only [List.map_cons, List.head?_cons, ne_eq, Option.some.injEq]
      intro hh
      have h2 := congrArg UInt8.toNat hh
      rw [hcn] at h2
      have : (45 : UInt8).toNat = 45 := rfl
      omega

theorem roundHalfEven_nearest (n d : Nat) (hd : 0 < d) :
    2 * (n - roundHalfEven n d * d) ≤ d ∧ 2 * (roundHalfEven n d * d - n) ≤ d
      ∧ ((2 * (n - roundHalfEven n d * d) ≠ d ∧ 2 * (roundHalfEven n d * d - n) ≠ d)
          ∨ roundHalfEven n d % 2 = 0) := by
  have h1 : n / d * d + n % d = n := by
    rw [Nat.mul_comm]
    exact Nat.div_add_mod n d
  have h2 : n % d < d := Nat.mod_lt n hd
  have h3 : (n / d + 1) * d = n / d * d + d := Nat.succ_mul (n / d) d
  unfold roundHalfEven
  simp only
  split_ifs with hc
  · rw [h3]
    generalize n / d * d = x at h1
    generalize n % d = r at h1 h2 hc
    omega
  · generalize n / d * d = x at h1
    generalize n % d = r at h1 h2 hc
    omega

theorem tenths_nearest (mant : Nat) (exp : Int) : nearestTenth mant exp (tenths mant exp) = true := by
  cases exp with
  | ofNat e => simp [nearestTenth, tenths]
  | negSucc e =>
    have hd : 0 < 2 ^ (e + 1) := Nat.pos_pow_of_pos _ (by decide)
    obtain ⟨a, b, c⟩ := roundHalfEven_nearest (mant * 10) (2 ^ (e + 1)) hd
    simp only [nearestTenth, tenths, Bool.and_eq_true, Bool.or_eq_true, decide_eq_true_eq,
      beq_iff_eq]
    exact ⟨⟨a, b⟩, c⟩

theorem decimal_digit (k : Nat) (h : k < 10) :
    (decimal k).length = 1 ∧ isDigitByte ((decimal k).getD 0 0) = true
      ∧ ((decimal k).getD 0 0).toNat - 48 = k := by
  interval_cases k <;> decide

theorem readTenths_append (w : GoString) (d : UInt8) (hw : isNumeral w = true)
    (hd : isDigitByte d = true) :
    readTenths (w ++ [46, d]) = some (10 * digitsValue w + (d.toNat - 48)) := by
  have hlen : (w ++ [46, d]).length - 2 = w.length := by simp
  unfold readTenths
  simp only [hlen, List.take_left, List.drop_left, hw]
  simp [hd]

theorem readOneDecimal_numeral (neg : Bool) (w f : GoString) (hw : isNumeral w = true)
    (hh : w.head? ≠ some 45) (hf : f.length = 1) (hd : isDigitByte (f.getD 0 0) = true) :
    readOneDecimal ((if neg then bytesOf "-" else []) ++ w ++ bytesOf "." ++ f)
      = some (neg, 10 * digitsValue w + ((f.getD 0 0).toNat - 48)) := by
  have hdot : bytesOf "." = [46] := by decide
  have hminus : bytesOf "-" = [45] := by decide
  obtain ⟨d, rfl⟩ := List.length_eq_one.mp hf
  have hd2 : isDigitByte d = true := hd
  have hne : w ≠ [] := by
    intro h0
    rw [h0] at hw
    exact absurd hw (by decide)
  have hhead : (w ++ [46, d]).head? = w.head? := by
    obtain ⟨c, t, rfl⟩ := List.exists_cons_of_ne_nil hne
    rfl
  rw [hdot, hminus]
  cases neg with
  | true =>
    have e : (if true = true then [45] else []) ++ w ++ [46] ++ [d]
        = (45 : UInt8) :: (w ++ [46, d]) := by simp
    rw [e]
    unfold readOneDecimal
    rw [if_pos (by rfl)]
    simp only [List.drop_succ_cons, List.drop_zero]
    rw [readTenths_append w d hw hd2]
    rfl
  | false =>
    have e : (if false = true then [45] else []) ++ w ++ [46] ++ [d] = w ++ [46, d] := by simp
    rw [e]
    unfold readOneDecimal
    rw [if_neg (by rw [hhead]; exact hh), readTenths_append w d hw hd2]
    rfl

theorem formatF1_finite (neg : Bool) (mant : Nat) (exp : Int) :
    readOneDecimal (formatF1 (.finite neg mant exp)) = some (neg, tenths mant exp) := by
  have hk : tenths mant exp % 10 < 10 := Nat.mod_lt _ (by decide)
  obtain ⟨k1, k2, k3⟩ := decimal_digit _ hk
  obtain ⟨w1, w2, w3⟩ := decimal_spec (tenths mant exp / 10)
  unfold formatF1
  rw [readOneDecimal_numeral neg _ _ w1 w3 k1 k2, w2, k3]
  congr 2
  omega

/-! ## The model on concrete inputs -/

theorem formatF1_samples :
    formatF1 (.finite false 3 3) = bytesOf "24.0"
      ∧ formatF1 (.finite false 1 (-2)) = bytesOf "0.2"
      ∧ formatF1 (.finite false 3 (-2)) = bytesOf "0.8"
      ∧ formatF1 (.finite false 5 (-1)) = bytesOf "2.5"
      ∧ formatF1 (.finite true 0 0) = bytesOf "-0.0"
      ∧ formatF1 (.finite false 3602879701896397 (-56)) = bytesOf "0.1"
      ∧ formatF1 (.inf false) = bytesOf "+Inf" := by
  decide

theorem readOneDecimal_samples :
    readOneDecimal (bytesOf "24.0") = some (false, 240)
      ∧ readOneDecimal (bytesOf "-0.5") = some (true, 5)
      ∧ readOneDecimal (bytesOf "0.0") = some (false, 0)
      ∧ readOneDecimal (bytesOf "024.0") = none
      ∧ readOneDecimal (bytesOf "24") = none
      ∧ readOneDecimal (bytesOf "24.") = none
      ∧ readOneDecimal (bytesOf ".5") = none
      ∧ readOneDecimal (bytesOf "1.25") = none
      ∧ readOneDecimal (bytesOf "+Inf") = none
      ∧ readOneDecimal (bytesOf "NaN") = none
      ∧ readOneDecimal [] = none
      ∧ nearestTenth 1 (-2) 2 = true ∧ nearestTenth 1 (-2) 3 = false
      ∧ nearestTenth 3 (-2) 8 = true ∧ nearestTenth 3 (-2) 7 = false
      ∧ nearestTenth 3 3 240 = true ∧ nearestTenth 3 3 241 = false := by
  decide

theorem flagParse_samples :
    flagParse [bytesOf "-h"] none ([], []) = ⟨[], [], [], some 0⟩
      ∧ flagParse [bytesOf "--help"] none ([], []) = ⟨[], [], [], some 0⟩
      ∧ flagParse [bytesOf "-output"] none ([], []) = ⟨[], [], [], some 2⟩
      ∧ flagParse [bytesOf "-x", bytesOf "a.xml"] none ([], [])
          = ⟨[], [], [bytesOf "a.xml"], some 2⟩
      ∧ flagParse [bytesOf "---x"] none ([], []) = ⟨[], [], [bytesOf "---x"], some 2⟩
      ∧ flagParse [bytesOf "-input=a.xml", bytesOf "--output", bytesOf "b", bytesOf "c",
            bytesOf "-h"] none ([], [])
          = ⟨bytesOf "a.xml", bytesOf "b", [bytesOf "c", bytesOf "-h"], none⟩
      ∧ flagParse [bytesOf "-input", bytesOf "-h", bytesOf "--", bytesOf "-x"] none ([], [])
          = ⟨bytesOf "-h", [], [bytesOf "-x"], none⟩
      ∧ flagParse [bytesOf "-", bytesOf "-h"] none ([], [])
          = ⟨[], [], [bytesOf "-", bytesOf "-h"], none⟩
      ∧ flagParse [bytesOf "a.xml", bytesOf "-output", bytesOf "b"] none ([], [])
          = ⟨[], [], [bytesOf "a.xml", bytesOf "-output", bytesOf "b"], none⟩ := by
  decide

theorem changeExtension_samples :
    changeExtension .unix (bytesOf "a.b/icon.xml") (bytesOf ".png") = bytesOf "a.b/icon.png"
      ∧ changeExtension .unix (bytesOf "a.b/icon") (bytesOf ".png") = bytesOf "a.b/icon.png"
      ∧ changeExtension .windows (bytesOf "a.b\\icon") (bytesOf ".png") = bytesOf "a.b\\icon.png"
      ∧ changeExtension .unix (bytesOf "a.b\\icon") (bytesOf ".png") = bytesOf "a.png"
      ∧ changeExtension .unix [] (bytesOf ".png") = bytesOf ".png" := by
  decide

/-! ## Colour normalisation -/

theorem isHexDigit_ascii (c : Char) (h : isHexDigit c = true) : c.toNat ≤ 127 := by
  simp only [isHexDigit, Bool.or_eq_true, Bool.and_eq_true, decide_eq_true_eq] at h
  omega

/-- C3: a colour token of nine characters, `#` followed by eight hexadecimal
digits, is turned by `convertColor` into a token of length seven: `#` followed
by the last six characters of the input. -/
theorem convertColor_argb (s : String) (hlen : s.length = 9)
    (hhash : s.data.head? = some '#') (hhex : ∀ c ∈ s.data.tail, isHexDigit c = true) :
    (convertColor (bytesOf s)).length = 7 ∧
      (String.mk ('#' :: s.data.drop (s.length - 6))).length = 7 ∧
      convertColor (bytesOf s) = bytesOf ⟨'#' :: s.data.drop (s.length - 6)⟩ := by
  obtain ⟨cs⟩ := s
  simp only [String.length] at hlen ⊢
  match cs, hlen, hhash, hhex with
  | c :: t, hlen, hhash, hhex =>
    simp only [List.head?_cons, Option.some.injEq] at hhash
    subst hhash
    simp only [List.tail_cons] at hhex
    have hall : ∀ x ∈ '#' :: t, x.toNat ≤ 127 := by
      intro x hx
      rcases List.mem_cons.mp hx with rfl | hx
      · decide
      · exact isHexDigit_ascii x (hhex x hx)
    have hdrop : ∀ x ∈ '#' :: ('#' :: t).drop (('#' :: t).length - 6), x.toNat ≤ 127 := by
      intro x hx
      rcases List.mem_cons.mp hx with rfl | hx
      · decide
      · exact hall x (List.mem_of_mem_drop hx)
    have hb : (bytesOf ⟨'#' :: t⟩).length = 9 := by
      rw [bytesOf_ascii _ hall, List.length_map]
      exact hlen
    rw [convertColor_len9 _ hb, bytesOf_ascii _ hall, bytesOf_ascii _ hdrop, bytesOf_hash, hlen]
    simp only [List.length_cons] at hlen
    refine ⟨?_, ?_, ?_⟩
    · simp
      omega
    · simp
      omega
    · simp [List.map_drop]
      rfl

/-- C3, on the token `#FF112233`. -/
theorem convertColor_argb_witness :
    (convertColor (bytesOf "#FF112233")).length = 7 ∧
      (String.mk ('#' :: "#FF112233".data.drop ("#FF112233".length - 6))).length = 7 ∧
      convertColor (bytesOf "#FF112233")
        = bytesOf ⟨'#' :: "#FF112233".data.drop ("#FF112233".length - 6)⟩ :=
  convertColor_argb "#FF112233" (by decide) (by decide) (by decide)

/-- C4: a colour token whose length in bytes is not nine is returned by
`convertColor` as it is; `convertColor` is a total function whose one slice
expression is in range, so there is no failure. -/
theorem convertColor_passthrough (s : GoString) (h : s.length ≠ 9) : convertColor s = s := by
  unfold convertColor
  rw [dif_neg h]

/-- C4, on the empty token, on `#112233` and on `red`. -/
theorem convertColor_passthrough_witness :
    convertColor [] = [] ∧ convertColor (bytesOf "#112233") = bytesOf "#112233"
      ∧ convertColor (bytesOf "red") = bytesOf "red" :=
  ⟨convertColor_passthrough [] (by decide),
   convertColor_passthrough (bytesOf "#112233") (by decide),
   convertColor_passthrough (bytesOf "red") (by decide)⟩

/-- C5 as worded fails: a token of nine characters of which one takes two
bytes is returned unchanged, and a token of eight characters making nine bytes
is cut. -/
theorem convertColor_chars_counterexample :
    ("é12345678".length = 9
        ∧ convertColor (bytesOf "é12345678") = bytesOf "é12345678"
        ∧ convertColor (bytesOf "é12345678")
            ≠ bytesOf ⟨'#' :: "é12345678".data.drop ("é12345678".length - 6)⟩)
      ∧ ("é1234567".length ≠ 9
        ∧ convertColor (bytesOf "é1234567") = bytesOf "#234567"
        ∧ convertColor (bytesOf "é1234567") ≠ bytesOf "é1234567") := by
  decide

/-- C5 amended: with length counted in bytes, and for any byte string at all,
`convertColor` gives `#` followed by the last six bytes when there are exactly
nine bytes, and the argument itself otherwise; on text made of ASCII characters
only, where characters and bytes coincide, this is the statement in characters. -/
theorem convertColor_bytes :
    (∀ s : GoString,
        convertColor s = if s.length = 9 then bytesOf "#" ++ s.drop (s.length - 6) else s)
      ∧ (∀ s : String, (∀ c ∈ s.data, c.toNat ≤ 127) →
        convertColor (bytesOf s)
          = if s.length = 9 then bytesOf ⟨'#' :: s.data.drop (s.length - 6)⟩ else bytesOf s) := by
  constructor
  · intro s
    by_cases h : s.length = 9
    · rw [if_pos h, convertColor_len9 s h, h]
    · rw [if_neg h, convertColor_other s h]
  · intro s hs
    obtain ⟨cs⟩ := s
    simp only [String.length] at hs ⊢
    have hb : (bytesOf ⟨cs⟩).length = cs.length := by
      rw [bytesOf_ascii _ hs, List.length_map]
    by_cases h : cs.length = 9
    · have hdrop : ∀ x ∈ '#' :: cs.drop (cs.length - 6), x.toNat ≤ 127 := by
        intro x hx
        rcases List.mem_cons.mp hx with rfl | hx
        · decide
        · exact hs x (List.mem_of_mem_drop hx)
      rw [if_pos h, convertColor_len9 _ (hb.trans h), bytesOf_ascii _ hs, bytesOf_ascii _ hdrop,
        bytesOf_hash, h]
      simp [List.map_drop]
      rfl
    · rw [if_neg h, convertColor_other _ (by rw [hb]; exact h)]

/-- C5 amended, on a token of nine bytes that is not ASCII and on `#80FFFFFF`. -/
theorem convertColor_bytes_witness :
    convertColor (bytesOf "é1234567")
        = bytesOf "#" ++ (bytesOf "é1234567").drop ((bytesOf "é1234567").length - 6)
      ∧ convertColor (bytesOf "#80FFFFFF") = bytesOf "#FFFFFF" := by
  have h1 := convertColor_bytes.1 (bytesOf "é1234567")
  have h2 := convertColor_bytes.2 "#80FFFFFF" (by decide)
  rw [if_pos (by decide)] at h1
  rw [if_pos (by decide)] at h2
  exact ⟨h1, h2.trans (by decide)⟩

/-! ## File names: auxiliary facts -/

theorem extLoop_suffix (goos : GOOS) (path : GoString) (k : Nat) (hk : k ≤ path.length) :
    ∃ i, i ≤ path.length ∧ extLoop goos path k = path.drop i := by
  induction k with
  | zero => exact ⟨path.length, le_refl _, by simp [extLoop]⟩
  | succ i ih =>
    unfold extLoop
    split
    · exact ⟨path.length, le_refl _, by simp⟩
    · split
      · exact ⟨i, by omega, rfl⟩
      · exact ih (by omega)

theorem HasSuffix_drop (s : GoString) (i : Nat) (hi : i ≤ s.length) :
    HasSuffix s (s.drop i) = true := by
  have h : s.length - (s.length - i) = i := by omega
  simp [HasSuffix, h]

theorem TrimSuffix_drop (s : GoString) (i : Nat) (hi : i ≤ s.length) :
    TrimSuffix s (s.drop i) = s.take i := by
  have h : s.length - (s.length - i) = i := by omega
  simp [TrimSuffix, HasSuffix_drop s i hi, sliceTo, h]

/-- The shape of every result of `changeExtension`: the name is cut where its
extension begins and the new extension is put there. -/
theorem changeExtension_cut (goos : GOOS) (filename newExt : GoString) :
    ∃ i, i ≤ filename.length ∧ Ext goos filename = filename.drop i
      ∧ changeExtension goos filename newExt = filename.take i ++ newExt := by
  obtain ⟨i, hi, he⟩ := extLoop_suffix goos filename filename.length (le_refl _)
  refine ⟨i, hi, he, ?_⟩
  have he2 : Ext goos filename = filename.drop i := he
  simp only [changeExtension]
  rw [he2, TrimSuffix_drop filename i hi]

theorem IsPathSeparator_dot (goos : GOOS) : IsPathSeparator goos 46 = false := by
  cases goos <;> decide

theorem extLoop_append (goos : GOOS) (stem t : GoString)
    (ht : ∀ c ∈ t, c ≠ 46 ∧ IsPathSeparator goos c = false) (j : Nat) (hj : j ≤ t.length) :
    extLoop goos (stem ++ 46 :: t) (stem.length + 1 + j) = 46 :: t := by
  induction j with
  | zero =>
    have h0 : (stem ++ 46 :: t).getD stem.length 0 = 46 := by
      rw [List.getD_append_right _ _ _ _ (le_refl _)]
      simp
    show extLoop goos (stem ++ 46 :: t) (stem.length + 1) = 46 :: t
    simp only [extLoop, h0, IsPathSeparator_dot, Bool.false_eq_true, if_false, if_true]
    exact List.drop_left stem (46 :: t)
  | succ j ih =>
    have hlt : j < t.length := by omega
    have hget : (stem ++ 46 :: t).getD (stem.length + 1 + j) 0 = t[j] := by
      rw [List.getD_append_right _ _ _ _ (by omega)]
      have h1 : stem.length + 1 + j - stem.length = j + 1 := by omega
      rw [h1, List.getD_cons_succ, List.getD_eq_getElem _ _ hlt]
    have hmem := ht t[j] (List.getElem_mem hlt)
    show extLoop goos (stem ++ 46 :: t) (stem.length + 1 + j + 1) = 46 :: t
    simp only [extLoop, hget, hmem.1, hmem.2, if_false, Bool.false_eq_true]
    exact ih (by omega)

/-- A name that ends in a dot followed by bytes that are neither dots nor path
separators has that ending as its extension. -/
theorem Ext_append (goos : GOOS) (stem t : GoString)
    (ht : ∀ c ∈ t, c ≠ 46 ∧ IsPathSeparator goos c = false) :
    Ext goos (stem ++ 46 :: t) = 46 :: t := by
  have h := extLoop_append goos stem t ht t.length (le_refl _)
  have hl : (stem ++ 46 :: t).length = stem.length + 1 + t.length := by
    simp
    omega
  unfold Ext
  rw [hl]
  exact h

theorem TrimSuffix_append (a b : GoString) : TrimSuffix (a ++ b) b = a := by
  have h := TrimSuffix_drop (a ++ b) a.length (by simp)
  simpa using h

theorem changeExtension_append (goos : GOOS) (stem t newExt : GoString)
    (ht : ∀ c ∈ t, c ≠ 46 ∧ IsPathSeparator goos c = false) :
    changeExtension goos (stem ++ 46 :: t) newExt = stem ++ newExt := by
  simp only [changeExtension]
  rw [Ext_append goos stem t ht, TrimSuffix_append]

theorem xml_plain (goos : GOOS) :
    ∀ c ∈ ([120, 109, 108] : GoString), c ≠ 46 ∧ IsPathSeparator goos c = false := by
  cases goos <;> decide

theorem png_plain (goos : GOOS) :
    ∀ c ∈ ([112, 110, 103] : GoString), c ≠ 46 ∧ IsPathSeparator goos c = false := by
  cases goos <;> decide

theorem bytesOf_xml : bytesOf ".xml" = 46 :: [120, 109, 108] := by decide

theorem bytesOf_png : bytesOf ".png" = 46 :: [112, 110, 103] := by decide

theorem bytesOf_svg : bytesOf ".svg" = 46 :: [115, 118, 103] := by decide

theorem changeExtension_xml (goos : GOOS) (stem newExt : GoString) :
    changeExtension goos (stem ++ bytesOf ".xml") newExt = stem ++ newExt := by
  rw [bytesOf_xml]
  exact changeExtension_append goos stem _ newExt (xml_plain goos)

theorem changeExtension_png (goos : GOOS) (stem newExt : GoString) :
    changeExtension goos (stem ++ bytesOf ".png") newExt = stem ++ newExt := by
  rw [bytesOf_png]
  exact changeExtension_append goos stem _ newExt (png_plain goos)

/-! ## Output file naming -/

/-- C6: for an input named `stem ++ ".xml"` and no output given by flag or by
position, the PNG goes to `stem ++ ".png"` and the SVG to `stem ++ ".svg"`,
whatever `stem` is; a run that can read the input writes the SVG there and hands
both names to `svg2png`. -/
theorem default_output_names (goos : GOOS) (stem : GoString) :
    changeExtension goos (stem ++ bytesOf ".xml") (bytesOf ".png") = stem ++ bytesOf ".png"
      ∧ changeExtension goos (changeExtension goos (stem ++ bytesOf ".xml") (bytesOf ".png"))
          (bytesOf ".svg") = stem ++ bytesOf ".svg"
      ∧ resolveArgs goos (stem ++ bytesOf ".xml") [] []
          = (stem ++ bytesOf ".xml", stem ++ bytesOf ".png")
      ∧ resolveArgs goos [] [] [stem ++ bytesOf ".xml"]
          = (stem ++ bytesOf ".xml", stem ++ bytesOf ".png")
      ∧ ∀ (w : World) (byteValue : GoString),
          w.openRead (stem ++ bytesOf ".xml") = .ok byteValue →
          (main goos w [] [] [stem ++ bytesOf ".xml"]).events
            = [.openFile (stem ++ bytesOf ".xml"),
               .writeFile (stem ++ bytesOf ".svg") (emitSVG (w.unmarshal byteValue))]
              ++ (svg2png w (stem ++ bytesOf ".svg") (stem ++ bytesOf ".png")).1 := by
  have hne : stem ++ bytesOf ".xml" ≠ [] := by simp [bytesOf_xml]
  have hpng : stem ++ bytesOf ".png" ≠ [] := by simp [bytesOf_png]
  have h1 := changeExtension_xml goos stem (bytesOf ".png")
  have h2 := changeExtension_png goos stem (bytesOf ".svg")
  have h3 : resolveArgs goos (stem ++ bytesOf ".xml") [] []
      = (stem ++ bytesOf ".xml", stem ++ bytesOf ".png") := by
    simp [resolveArgs, hne, h1]
  have h4 : resolveArgs goos [] [] [stem ++ bytesOf ".xml"]
      = (stem ++ bytesOf ".xml", stem ++ bytesOf ".png") := by
    simp [resolveArgs, h1]
  refine ⟨h1, ?_, h3, h4, ?_⟩
  · rw [h1, h2]
  · intro w byteValue hw
    simp only [main, h4, if_neg hne, hw, h2]

/-- C6, on the input `icon.xml`. -/
theorem default_output_names_witness :
    changeExtension .unix (bytesOf "icon.xml") (bytesOf ".png") = bytesOf "icon.png"
      ∧ changeExtension .unix (changeExtension .unix (bytesOf "icon.xml") (bytesOf ".png"))
          (bytesOf ".svg") = bytesOf "icon.svg"
      ∧ (main .unix iconWorld [] [] [bytesOf "icon.xml"]).events
          = [.openFile (bytesOf "icon.xml"),
             .writeFile (bytesOf "icon.svg") (emitSVG (iconWorld.unmarshal (bytesOf "<vector/>")))]
            ++ (svg2png iconWorld (bytesOf "icon.svg") (bytesOf "icon.png")).1 := by
  have h := default_output_names .unix (bytesOf "icon")
  have e1 : bytesOf "icon" ++ bytesOf ".xml" = bytesOf "icon.xml" := by decide
  have e2 : bytesOf "icon" ++ bytesOf ".png" = bytesOf "icon.png" := by decide
  have e3 : bytesOf "icon" ++ bytesOf ".svg" = bytesOf "icon.svg" := by decide
  rw [e1, e2, e3] at h
  exact ⟨h.1, h.2.1, h.2.2.2.2 iconWorld (bytesOf "<vector/>") (by simp [iconWorld])⟩

/-- C10: the SVG file name derived from an output name `o` is `o` itself
exactly when the extension of `o` is `.svg`; an output name defaulted from the
input ends in `.png` and so differs from its SVG file name. -/
theorem svg_name_eq_output_iff (goos : GOOS) :
    (∀ o : GoString, changeExtension goos o (bytesOf ".svg") = o ↔ Ext goos o = bytesOf ".svg")
      ∧ ∀ input : GoString,
          (∃ base, changeExtension goos input (bytesOf ".png") = base ++ bytesOf ".png")
            ∧ changeExtension goos (changeExtension goos input (bytesOf ".png")) (bytesOf ".svg")
                ≠ changeExtension goos input (bytesOf ".png") := by
  constructor
  · intro o
    obtain ⟨i, _, he, hc⟩ := changeExtension_cut goos o (bytesOf ".svg")
    rw [hc, he]
    constructor
    · intro h
      have h2 : List.take i o ++ bytesOf ".svg" = List.take i o ++ List.drop i o := by
        rw [List.take_append_drop]
        exact h
      exact ((List.append_right_inj _).mp h2).symm
    · intro h
      rw [← h, List.take_append_drop]
  · intro input
    obtain ⟨i, _, _, hc⟩ := changeExtension_cut goos input (bytesOf ".png")
    refine ⟨⟨input.take i, hc⟩, ?_⟩
    rw [hc, changeExtension_png]
    intro h
    have h2 := (List.append_right_inj _).mp h
    revert h2
    decide

/-! ## Argument resolution and the exit code -/

theorem resolveArgs_fst (goos : GOOS) (inputFlag outputFlag : GoString) (args : List GoString) :
    (resolveArgs goos inputFlag outputFlag args).1
      = if inputFlag = [] ∧ args.length ≥ 1 then args.getD 0 [] else inputFlag := rfl

theorem resolveArgs_fst_nil_iff (goos : GOOS) (inputFlag outputFlag : GoString)
    (args : List GoString) :
    (resolveArgs goos inputFlag outputFlag args).1 = []
      ↔ inputFlag = [] ∧ (args = [] ∨ args.head? = some []) := by
  rw [resolveArgs_fst]
  cases args with
  | nil => simp
  | cons a t =>
    by_cases hi : inputFlag = []
    · simp [hi]
    · simp [hi]

theorem main_missing (goos : GOOS) (w : World) (inputFlag outputFlag : GoString)
    (args : List GoString) (h : (resolveArgs goos inputFlag outputFlag args).1 = []) :
    main goos w inputFlag outputFlag args
      = ⟨[.println (bytesOf "Missing input file name (android xml vector drawable).")], 11⟩ := by
  unfold main
  rcases hr : resolveArgs goos inputFlag outputFlag args with ⟨a, b⟩
  rw [hr] at h
  simp only at h
  simp [h]

theorem main_present (goos : GOOS) (w : World) (inputFlag outputFlag : GoString)
    (args : List GoString) (h : (resolveArgs goos inputFlag outputFlag args).1 ≠ []) :
    (main goos w inputFlag outputFlag args).exitCode ≠ 11 := by
  unfold main
  rcases hr : resolveArgs goos inputFlag outputFlag args with ⟨a, b⟩
  rw [hr] at h
  simp only at h
  simp only [if_neg h]
  cases w.openRead a with
  | error err => simp
  | ok byteValue =>
    simp only
    split <;> simp

theorem main_exit11_iff (goos : GOOS) (w : World) (inputFlag outputFlag : GoString)
    (args : List GoString) :
    (main goos w inputFlag outputFlag args).exitCode = 11
      ↔ inputFlag = [] ∧ (args = [] ∨ args.head? = some []) := by
  rw [← resolveArgs_fst_nil_iff goos inputFlag outputFlag args]
  constructor
  · intro h
    by_contra hne
    exact main_present goos w inputFlag outputFlag args hne h
  · intro h
    rw [main_missing goos w inputFlag outputFlag args h]

theorem flagParse_exit (l : List GoString) : ∀ (p : Option GoString) (st : GoString × GoString),
    (flagParse l p st).exit = none ∨ (flagParse l p st).exit = some 0
      ∨ (flagParse l p st).exit = some 2 := by
  induction l with
  | nil =>
    intro p st
    cases p <;> simp [flagParse]
  | cons s rest ih =>
    intro p st
    cases p with
    | some name =>
      simp only [flagParse]
      exact ih _ _
    | none =>
      simp only [flagParse]
      split
      · simp
      · simp
      · simp
      · split_ifs
        · split
          · exact ih _ _
          · exact ih _ _
        · simp
        · simp

theorem program_of_exit (goos : GOOS) (w : World) (argv : List GoString) (code : Nat)
    (h : (flagParse argv none ([], [])).exit = some code) :
    program goos w argv = ⟨[.usage], code⟩ := by
  simp only [program, h]

theorem program_of_parsed (goos : GOOS) (w : World) (argv : List GoString)
    (h : (flagParse argv none ([], [])).exit = none) :
    program goos w argv
      = main goos w (flagParse argv none ([], [])).inputFile
          (flagParse argv none ([], [])).outputFile (flagParse argv none ([], [])).args := by
  simp only [program, h]

/-- C7 as worded fails: on the command lines `-h` and `-output` the `-input`
flag is empty and no positional argument is left, and the process ends with
code 0 and code 2, not 11. -/
theorem exit11_parse_counterexample :
    ((flagParse [bytesOf "-h"] none ([], [])).inputFile = []
        ∧ (flagParse [bytesOf "-h"] none ([], [])).args = []
        ∧ (program .unix iconWorld [bytesOf "-h"]).exitCode = 0)
      ∧ ((flagParse [bytesOf "-output"] none ([], [])).inputFile = []
        ∧ (flagParse [bytesOf "-output"] none ([], [])).args = []
        ∧ (program .unix iconWorld [bytesOf "-output"]).exitCode = 2) := by
  decide

/-- C7 amended: the program exits with code 11 exactly when `flag.Parse`
completes and no input name can be resolved, that is, the `-input` flag is
empty and there is no positional argument or the first one is empty; once
`flag.Parse` has completed this holds whatever the `-output` flag, the other
positional arguments and the surroundings are.  On a command line that starts
with no flag that is: there is no argument or the first one is empty.  A run
that exits with code 11 prints one line and touches no file. -/
theorem exit11_iff (goos : GOOS) (w : World) (argv : List GoString) :
    ((program goos w argv).exitCode = 11
        ↔ (flagParse argv none ([], [])).exit = none
          ∧ (flagParse argv none ([], [])).inputFile = []
          ∧ ((flagParse argv none ([], [])).args = []
              ∨ (flagParse argv none ([], [])).args.head? = some []))
      ∧ (∀ (inputFlag outputFlag : GoString) (args : List GoString),
          (main goos w inputFlag outputFlag args).exitCode = 11
            ↔ inputFlag = [] ∧ (args = [] ∨ args.head? = some []))
      ∧ ((∀ a ∈ argv.head?, a.length < 2 ∨ a.getD 0 0 ≠ 45) →
          ((program goos w argv).exitCode = 11 ↔ argv = [] ∨ argv.head? = some []))
      ∧ ((program goos w argv).exitCode = 11 →
          (program goos w argv).events
              = [.println (bytesOf "Missing input file name (android xml vector drawable).")]
            ∧ ∀ e ∈ (program goos w argv).events, e.touchesFile = false) := by
  have hmain := main_exit11_iff goos w
  have hplain : (∀ a ∈ argv.head?, a.length < 2 ∨ a.getD 0 0 ≠ 45) →
      flagParse argv none ([], []) = ⟨[], [], argv, none⟩ := by
    intro h
    cases argv with
    | nil => simp [flagParse]
    | cons a rest =>
      have ha := h a (by simp)
      have hk : classify a = .positional := by
        unfold classify
        rw [if_pos ha]
      simp only [flagParse, hk]
  have hno : ∀ code : Nat, (flagParse argv none ([], [])).exit = some code → code ≠ 11 := by
    intro code hc
    rcases flagParse_exit argv none ([], []) with h | h | h
    · rw [h] at hc
      exact absurd hc (by simp)
    · rw [h] at hc
      simp only [Option.some.injEq] at hc
      omega
    · rw [h] at hc
      simp only [Option.some.injEq] at hc
      omega
  refine ⟨?_, hmain, ?_, ?_⟩
  · cases hex : (flagParse argv none ([], [])).exit with
    | none =>
      rw [program_of_parsed goos w argv hex, hmain]
      simp
    | some code =>
      rw [program_of_exit goos w argv code hex]
      constructor
      · intro h
        exact absurd h (hno code hex)
      · intro h
        exact absurd h.1 (by simp)
  · intro h
    have hp := hplain h
    have hex : (flagParse argv none ([], [])).exit = none := by rw [hp]
    rw [program_of_parsed goos w argv hex, hp, hmain]
    simp
  · intro h
    cases hex : (flagParse argv none ([], [])).exit with
    | some code =>
      rw [program_of_exit goos w argv code hex] at h
      exact absurd h (hno code hex)
    | none =>
      rw [program_of_parsed goos w argv hex] at h ⊢
      have hr := (resolveArgs_fst_nil_iff goos _ (flagParse argv none ([], [])).outputFile _).mpr
        ((hmain _ (flagParse argv none ([], [])).outputFile _).mp h)
      rw [main_missing goos w _ _ _ hr]
      refine ⟨rfl, ?_⟩
      intro e he
      simp only [List.mem_singleton] at he
      subst he
      rfl

/-- C7 amended, on the empty command line and on `-output o.png` followed by
an empty positional argument and a further one. -/
theorem exit11_iff_witness :
    (program .unix iconWorld []).exitCode = 11
      ∧ (program .unix iconWorld
          [bytesOf "-output", bytesOf "o.png", [], bytesOf "icon.xml"]).exitCode = 11 :=
  ⟨(exit11_iff .unix iconWorld []).1.mpr (by decide),
   (exit11_iff .unix iconWorld
      [bytesOf "-output", bytesOf "o.png", [], bytesOf "icon.xml"]).1.mpr (by decide)⟩

/-- C9 as worded fails: with `-input in.xml -output out.png` and the single
positional argument `x.png`, the output is `out.png`, not `in.png`. -/
theorem resolve_one_positional_counterexample :
    (resolveArgs .unix (bytesOf "in.xml") (bytesOf "out.png") [bytesOf "x.png"]).2
        = bytesOf "out.png"
      ∧ (resolveArgs .unix (bytesOf "in.xml") (bytesOf "out.png") [bytesOf "x.png"]).2
        ≠ changeExtension .unix (bytesOf "in.xml") (bytesOf ".png") := by
  decide

/-- C9 amended: the input is the `-input` flag when that is not empty and
otherwise the first positional argument; the output is the `-output` flag when
that is not empty, otherwise the second positional argument when there is one
and it is not empty, otherwise the input with its extension replaced by `.png`.
With `-input` given by flag and exactly one positional argument, that argument
is used for neither, and the output is the `-output` flag when that is not
empty and otherwise the input with its extension replaced by `.png`. -/
theorem resolveArgs_rule (goos : GOOS) (inputFlag outputFlag : GoString)
    (args : List GoString) :
    (resolveArgs goos inputFlag outputFlag args).1
        = (if inputFlag ≠ [] then inputFlag
           else match args with
             | [] => []
             | a :: _ => a)
      ∧ (resolveArgs goos inputFlag outputFlag args).2
        = (if outputFlag ≠ [] then outputFlag
           else match args with
             | _ :: b :: _ =>
               if b ≠ [] then b
               else changeExtension goos (resolveArgs goos inputFlag outputFlag args).1
                 (bytesOf ".png")
             | _ => changeExtension goos (resolveArgs goos inputFlag outputFlag args).1
                 (bytesOf ".png"))
      ∧ (inputFlag ≠ [] → ∀ a : GoString,
          resolveArgs goos inputFlag outputFlag [a]
            = (inputFlag,
               if outputFlag ≠ [] then outputFlag
               else changeExtension goos inputFlag (bytesOf ".png"))) := by
  refine ⟨?_, ?_, ?_⟩
  · rw [resolveArgs_fst]
    cases args with
    | nil => by_cases hi : inputFlag = [] <;> simp [hi]
    | cons a t => by_cases hi : inputFlag = [] <;> simp [hi]
  · by_cases ho : outputFlag = []
    · match args with
      | [] => simp [resolveArgs, ho]
      | [a] => simp [resolveArgs, ho]
      | a :: b :: t =>
        by_cases hb : b = []
        · simp [resolveArgs, ho, hb]
        · simp [resolveArgs, ho, hb]
    · simp [resolveArgs, ho]
  · intro hi a
    by_cases ho : outputFlag = []
    · simp [resolveArgs, hi, ho]
    · simp [resolveArgs, hi, ho]

/-- C9 amended, on `-input in.xml` with the one positional argument `x.png`,
without and with `-output out.png`. -/
theorem resolveArgs_rule_witness :
    resolveArgs .unix (bytesOf "in.xml") [] [bytesOf "x.png"]
        = (bytesOf "in.xml", bytesOf "in.png")
      ∧ resolveArgs .unix (bytesOf "in.xml") (bytesOf "out.png") [bytesOf "x.png"]
        = (bytesOf "in.xml", bytesOf "out.png") := by
  have h1 := (resolveArgs_rule .unix (bytesOf "in.xml") [] [bytesOf "x.png"]).2.2
    (by decide) (bytesOf "x.png")
  have h2 := (resolveArgs_rule .unix (bytesOf "in.xml") (bytesOf "out.png") [bytesOf "x.png"]).2.2
    (by decide) (bytesOf "x.png")
  have e1 : changeExtension .unix (bytesOf "in.xml") (bytesOf ".png") = bytesOf "in.png" := by
    decide
  have e2 : (bytesOf "out.png" ≠ []) = True := by decide
  rw [h1, h2]
  simp only [ne_eq, not_true_eq_false, if_false, e1, e2, if_true]
  exact ⟨trivial, trivial⟩

/-! ## SVG emission -/

theorem foldl_append_eq {α : Type} (f : α → GoString) (l : List α) (acc : GoString) :
    l.foldl (fun svg x => svg ++ f x) acc = acc ++ (l.map f).flatten := by
  induction l generalizing acc with
  | nil => simp
  | cons x t ih => simp [ih, List.append_assoc]

theorem emitSVG_eq_svgDocument (drawable : AndroidVectorDrawable) :
    emitSVG drawable = svgDocument drawable := by
  unfold emitSVG svgDocument
  simp only [foldl_append_eq pathElement]
  have hf : (fun (svg : GoString) (group : Group) =>
        svg ++ bytesOf "<g>" ++ (group.Paths.map pathElement).flatten ++ bytesOf "</g>")
      = fun svg group =>
        svg ++ (bytesOf "<g>" ++ (group.Paths.map pathElement).flatten ++ bytesOf "</g>") := by
    funext svg group
    simp only [List.append_assoc]
  rw [hf, foldl_append_eq
    (fun group : Group => bytesOf "<g>" ++ (group.Paths.map pathElement).flatten ++ bytesOf "</g>")]

theorem formatF1_reads (neg : Bool) (mant : Nat) (exp : Int) :
    ∃ n, readOneDecimal (formatF1 (.finite neg mant exp)) = some (neg, n)
      ∧ nearestTenth mant exp n = true :=
  ⟨tenths mant exp, formatF1_finite neg mant exp, tenths_nearest mant exp⟩

/-- C1: the SVG text that the loops of `main` accumulate is the opening
`<svg viewBox="0 0 W H" xmlns="http://www.w3.org/2000/svg">` header, then one
path element per top-level path in order, then per group in order `<g>`, one
path element per path of the group in order and `</g>`, then `</svg>`.  With
no top-level path and one group of two paths there is one block around those
two elements; with no group there is nothing between the top-level path
elements and `</svg>`.  `W` and `H` are the width and height as `%.1f` prints
them, which for a finite value is the nearest tenth with one decimal place. -/
theorem emitSVG_layout :
    (∀ drawable : AndroidVectorDrawable,
        emitSVG drawable
          = bytesOf "<svg viewBox=\"0 0 " ++ formatF1 drawable.Width ++ bytesOf " " ++ formatF1 drawable.Height
              ++ bytesOf "\" xmlns=\"http://www.w3.org/2000/svg\">"
            ++ (drawable.Paths.map (fun path =>
                  bytesOf "<path d=\"" ++ path.PathData ++ bytesOf "\" fill=\""
                    ++ convertColor path.FillColor ++ bytesOf "\"/>")).flatten
            ++ (drawable.Groups.map (fun group =>
                  bytesOf "<g>"
                    ++ (group.Paths.map (fun path =>
                          bytesOf "<path d=\"" ++ path.PathData ++ bytesOf "\" fill=\""
                            ++ convertColor path.FillColor ++ bytesOf "\"/>")).flatten
                    ++ bytesOf "</g>")).flatten
            ++ bytesOf "</svg>")
      ∧ (∀ (name : XMLName) (width height : Float64) (p1 p2 : VectorPath),
          emitSVG ⟨name, width, height, [], [⟨[p1, p2]⟩]⟩
            = bytesOf "<svg viewBox=\"0 0 " ++ formatF1 width ++ bytesOf " " ++ formatF1 height
                ++ bytesOf "\" xmlns=\"http://www.w3.org/2000/svg\">"
              ++ bytesOf "<g>"
              ++ (bytesOf "<path d=\"" ++ p1.PathData ++ bytesOf "\" fill=\""
                    ++ convertColor p1.FillColor ++ bytesOf "\"/>")
              ++ (bytesOf "<path d=\"" ++ p2.PathData ++ bytesOf "\" fill=\""
                    ++ convertColor p2.FillColor ++ bytesOf "\"/>")
              ++ bytesOf "</g>" ++ bytesOf "</svg>")
      ∧ (∀ (name : XMLName) (width height : Float64) (paths : List VectorPath),
          emitSVG ⟨name, width, height, paths, []⟩
            = bytesOf "<svg viewBox=\"0 0 " ++ formatF1 width ++ bytesOf " " ++ formatF1 height
                ++ bytesOf "\" xmlns=\"http://www.w3.org/2000/svg\">"
              ++ (paths.map (fun path =>
                    bytesOf "<path d=\"" ++ path.PathData ++ bytesOf "\" fill=\""
                      ++ convertColor path.FillColor ++ bytesOf "\"/>")).flatten
              ++ bytesOf "</svg>")
      ∧ (∀ (neg : Bool) (mant : Nat) (exp : Int),
          ∃ n, readOneDecimal (formatF1 (.finite neg mant exp)) = some (neg, n)
            ∧ nearestTenth mant exp n = true) := by
  refine ⟨?_, ?_, ?_, formatF1_reads⟩
  · intro drawable
    rw [emitSVG_eq_svgDocument]
    rfl
  · intro name width height p1 p2
    rw [emitSVG_eq_svgDocument]
    simp [svgDocument, svgHeader, pathElement, List.append_assoc]
  · intro name width height paths
    rw [emitSVG_eq_svgDocument]
    simp only [svgDocument, List.map_nil, List.flatten_nil, List.append_nil]
    rfl

theorem readTenths_head (c : UInt8) (t : GoString) (h : (readTenths (c :: t)).isSome = true) :
    isDigitByte c = true := by
  unfold readTenths at h
  simp only at h
  split_ifs at h with hc
  · simp only [Bool.and_eq_true] at hc
    obtain ⟨⟨⟨hn, _⟩, _⟩, _⟩ := hc
    cases hk : (c :: t).length - 2 with
    | zero =>
      rw [hk, List.take_zero] at hn
      exact absurd hn (by decide)
    | succ k =>
      rw [hk, List.take_succ_cons] at hn
      simp only [isNumeral, Bool.and_eq_true, List.all_cons] at hn
      exact hn.1.2.1
  · exact absurd h (by simp)

theorem readOneDecimal_head (c : UInt8) (t : GoString)
    (h : (readOneDecimal (c :: t)).isSome = true) : c = 45 ∨ isDigitByte c = true := by
  by_cases hc : c = 45
  · exact Or.inl hc
  · right
    unfold readOneDecimal at h
    rw [if_neg (by simpa using hc)] at h
    apply readTenths_head c t
    simpa using h

/-- C2 as worded fails: a drawable whose width and height are NaN, as
`viewportWidth="NaN"` gives, has `NaN` where the numbers stand, and no text
with one decimal place put there gives the emitted string. -/
theorem emitSVG_nan_counterexample :
    emitSVG ⟨⟨[], bytesOf "vector"⟩, .nan, .nan, [⟨bytesOf "M0 0", bytesOf "red", []⟩], []⟩
        = bytesOf ("<svg viewBox=\"0 0 NaN NaN\" xmlns=\"http://www.w3.org/2000/svg\">"
            ++ "<path d=\"M0 0\" fill=\"red\"/></svg>")
      ∧ readOneDecimal (bytesOf "NaN") = none
      ∧ ¬ ∃ W H : GoString, (readOneDecimal W).isSome = true ∧ (readOneDecimal H).isSome = true
          ∧ emitSVG ⟨⟨[], bytesOf "vector"⟩, .nan, .nan,
                [⟨bytesOf "M0 0", bytesOf "red", []⟩], []⟩
              = bytesOf "<svg viewBox=\"0 0 " ++ W ++ bytesOf " " ++ H
                ++ bytesOf "\" xmlns=\"http://www.w3.org/2000/svg\"><path d=\"M0 0\" fill=\"red\"/></svg>" := by
  refine ⟨by decide, by decide, ?_⟩
  rintro ⟨W, H, hW, _, h⟩
  have e : emitSVG ⟨⟨[], bytesOf "vector"⟩, .nan, .nan,
        [⟨bytesOf "M0 0", bytesOf "red", []⟩], []⟩
      = bytesOf "<svg viewBox=\"0 0 " ++ (78 :: bytesOf ("aN NaN\" xmlns=\"http://www.w3.org/2000/svg\">"
          ++ "<path d=\"M0 0\" fill=\"red\"/></svg>")) := by
    decide
  rw [e] at h
  simp only [List.append_assoc] at h
  have h2 := (List.append_right_inj _).mp h
  cases W with
  | nil => exact absurd hW (by decide)
  | cons c t =>
    simp only [List.cons_append, List.cons.injEq] at h2
    rcases readOneDecimal_head c t hW with hc | hc
    · rw [← h2.1] at hc
      exact absurd hc (by decide)
    · rw [← h2.1] at hc
      exact absurd hc (by decide)

/-- C2 amended: a drawable with no group and one top-level path with data `d`
and fill colour `c` gives the header with width and height as `%.1f` prints
them, the one path element with `d` as it is and the converted colour, and
`</svg>`.  A finite width or height is printed with one decimal place, as the
nearest tenth (the even one of two equally near) with a minus sign when the
sign bit is set; NaN and the infinities are printed as `NaN`, `+Inf` and
`-Inf`.  For width 24, height 24, data `M12 2L2 22` and colour `#FF000000` the
text is the one given in the specification. -/
theorem emitSVG_single_path :
    (∀ (name : XMLName) (width height : Float64) (d c fillType : GoString),
        emitSVG ⟨name, width, height, [⟨d, c, fillType⟩], []⟩
          = bytesOf "<svg viewBox=\"0 0 " ++ formatF1 width ++ bytesOf " " ++ formatF1 height
            ++ bytesOf "\" xmlns=\"http://www.w3.org/2000/svg\"><path d=\"" ++ d
            ++ bytesOf "\" fill=\"" ++ convertColor c ++ bytesOf "\"/></svg>")
      ∧ (∀ (neg : Bool) (mant : Nat) (exp : Int),
          ∃ n, readOneDecimal (formatF1 (.finite neg mant exp)) = some (neg, n)
            ∧ nearestTenth mant exp n = true)
      ∧ (formatF1 .nan = bytesOf "NaN" ∧ formatF1 (.inf false) = bytesOf "+Inf"
          ∧ formatF1 (.inf true) = bytesOf "-Inf")
      ∧ emitSVG ⟨⟨[], bytesOf "vector"⟩, .finite false 24 0, .finite false 24 0,
            [⟨bytesOf "M12 2L2 22", bytesOf "#FF000000", []⟩], []⟩
          = bytesOf ("<svg viewBox=\"0 0 24.0 24.0\" xmlns=\"http://www.w3.org/2000/svg\">"
              ++ "<path d=\"M12 2L2 22\" fill=\"#000000\"/></svg>")
      ∧ formatF1 (.finite false 6755399441055744 (-48)) = bytesOf "24.0" := by
  refine ⟨?_, formatF1_reads, ⟨rfl, rfl, rfl⟩, ?_, ?_⟩
  · intro name width height d c fillType
    have e1 : bytesOf "\" xmlns=\"http://www.w3.org/2000/svg\"><path d=\""
        = bytesOf "\" xmlns=\"http://www.w3.org/2000/svg\">" ++ bytesOf "<path d=\"" := by
      decide
    have e2 : bytesOf "\"/></svg>" = bytesOf "\"/>" ++ bytesOf "</svg>" := by decide
    rw [emitSVG_eq_svgDocument, e1, e2]
    simp [svgDocument, svgHeader, pathElement, List.append_assoc]
  · decide
  · decide

/-- C8: two drawables with the same width, the same height and, path by path
in order, the same path data and fill colours at top level and in each group
give the same SVG text, whatever their fill types and XML names are. -/
theorem emitSVG_ignores_fillType (d1 d2 : AndroidVectorDrawable)
    (hw : d1.Width = d2.Width) (hh : d1.Height = d2.Height)
    (hp : d1.Paths.map (fun p => (p.PathData, p.FillColor))
        = d2.Paths.map (fun p => (p.PathData, p.FillColor)))
    (hg : d1.Groups.map (fun g => g.Paths.map (fun p => (p.PathData, p.FillColor)))
        = d2.Groups.map (fun g => g.Paths.map (fun p => (p.PathData, p.FillColor)))) :
    emitSVG d1 = emitSVG d2 := by
  let pe : GoString × GoString → GoString := fun q =>
    bytesOf "<path d=\"" ++ q.1 ++ bytesOf "\" fill=\"" ++ convertColor q.2 ++ bytesOf "\"/>"
  have hpe : ∀ ps : List VectorPath,
      ps.map pathElement = (ps.map (fun p => (p.PathData, p.FillColor))).map pe := by
    intro ps
    rw [List.map_map]
    rfl
  let ge : List (GoString × GoString) → GoString := fun qs =>
    bytesOf "<g>" ++ (qs.map pe).flatten ++ bytesOf "</g>"
  have hge : ∀ gs : List Group,
      gs.map (fun group => bytesOf "<g>" ++ (group.Paths.map pathElement).flatten ++ bytesOf "</g>")
        = (gs.map (fun g => g.Paths.map (fun p => (p.PathData, p.FillColor)))).map ge := by
    intro gs
    rw [List.map_map]
    apply List.map_congr_left
    intro g _
    simp only [Function.comp, ge, hpe]
  rw [emitSVG_eq_svgDocument, emitSVG_eq_svgDocument]
  unfold svgDocument
  rw [hpe d1.Paths, hpe d2.Paths, hge d1.Groups, hge d2.Groups, hw, hh, hp, hg]

/-- C8, on two drawables that differ in fill type and XML name only. -/
theorem emitSVG_ignores_fillType_witness :
    emitSVG ⟨⟨[], bytesOf "vector"⟩, .finite false 24 0, .finite false 24 0,
        [⟨bytesOf "M0 0", bytesOf "#FF000000", bytesOf "evenOdd"⟩],
        [⟨[⟨bytesOf "M1 1", bytesOf "red", bytesOf "nonZero"⟩]⟩]⟩
      = emitSVG ⟨⟨bytesOf "ns", bytesOf "v"⟩, .finite false 24 0, .finite false 24 0,
        [⟨bytesOf "M0 0", bytesOf "#FF000000", []⟩],
        [⟨[⟨bytesOf "M1 1", bytesOf "red", bytesOf "evenOdd"⟩]⟩]⟩ :=
  emitSVG_ignores_fillType _ _ rfl rfl (by decide) (by decide)

end Vector2png
